import Mathlib

/-!
Verification of the banking PII detection-fusion and validation pipeline.

This file is a shallow embedding, in Lean 4, of the core logic of the
repository's backend:

* `backend/main.py` — schema validation with cross-category correction
  (`validate_entity`), ML result normalization (`_predict`) and the
  anonymizer (`_anonymize`);
* `backend/enhanced_main.py` — ML result normalization (`_predict`),
  the entity fuser (`_merge_entities`) and the anonymizer (`_anonymize`);
* `backend/validated_enhanced_main.py` — the strict schema validator
  (`ValidatedEnhancedPIIDetector.validate_entity`) and the
  validate-and-partition loop of `detect_comprehensive`.

Python strings are modelled as `List Char`, Python `int` as `Int`
(slice indices may be negative), `float` confidences as `Rat` (only
order operations are used), and compiled regular expressions as opaque
`Pattern` records carrying the pattern source string and a
match-from-the-start predicate, exactly the two capabilities the code
uses (`pattern.pattern` and `pattern.match(text)`).
-/

/-- Resolution of a Python slice bound `i` against a sequence of length
`len`: negative indices count from the end and are clamped at 0;
non-negative indices are clamped at `len`. -/
def sliceIdx (len : Nat) (i : Int) : Nat :=
  if i < 0 then ((len : Int) + i).toNat else min i.toNat len

/-- Python `l[:i]`. -/
def pyTake (l : List Char) (i : Int) : List Char :=
  l.take (sliceIdx l.length i)

/-- Python `l[i:]`. -/
def pyDrop (l : List Char) (i : Int) : List Char :=
  l.drop (sliceIdx l.length i)

/-- Python `l[s:e]` (for the default step 1). -/
def pySlice (l : List Char) (s e : Int) : List Char :=
  (l.take (sliceIdx l.length e)).drop (sliceIdx l.length s)

/-- Python `not text or not text.strip()`: the text is empty or whitespace. -/
def pyBlank (t : List Char) : Bool :=
  t.all Char.isWhitespace

/-- A compiled schema pattern: its source string (`pattern.pattern`) and its
match-from-the-start test (`pattern.match(text)` viewed as a Boolean). -/
structure Pattern where
  src : String
  pmatch : List Char → Bool

/-- The compiled-pattern table built by `_load_schema_patterns` /
`ValidatedEnhancedPIIDetector.__init__`: a Python dict in insertion
order, mapping a category name to its compiled pattern, or to `none`
when compilation of that category's regex failed. -/
abbrev Table := List (String × Option Pattern)

/-- Dict lookup: `none` models `category not in patterns`; `some none`
models a category whose pattern failed to compile. -/
def lookupPat (pats : Table) (c : String) : Option (Option Pattern) :=
  (pats.find? (fun e => e.1 == c)).map (fun e => e.2)

/-- The Python test `c in patterns and patterns[c] and patterns[c].match(text)`. -/
def usableMatch (pats : Table) (c : String) (t : List Char) : Bool :=
  match lookupPat pats c with
  | some (some p) => p.pmatch t
  | _ => false

/-- A validation verdict as returned by either validator: the dict keys
`valid`, `reason`, `confidence`, and the optional `corrected_category`
and `original_category` keys. -/
structure Verdict where
  valid : Bool
  reason : String
  confidence : Rat
  corrected_category : Option String
  original_category : Option String
deriving DecidableEq

/-- A candidate entity dict: `entity_group`, `word`, `start`, `end`,
`score` and the optional `method` key. -/
structure Entity where
  entity_group : String
  word : List Char
  start : Int
  end_ : Int
  score : Rat
  method : Option String
deriving DecidableEq

namespace MainApp

/-- The hard-coded priority list of `validate_entity`
(`backend/main.py:100`). -/
def specific_categories : List String :=
  ["PAN", "TELEPHONENUM", "AADHAAR", "DRIVERLICENSENUM", "EMAIL", "IFSC",
   "VOTERID", "PASSPORTNUM", "CREDITCARDNUM", "TRANSACTIONID", "GENDER",
   "DATE", "TIME", "AGE", "ZIPCODE", "BUILDINGNUM"]

/-- First loop of the cross-validation in `validate_entity`
(`backend/main.py:103-111`): the first prioritized category whose
pattern is present, compiled and matches the text. -/
def findSpecific (pats : Table) (t : List Char) : Option String :=
  specific_categories.find? (fun oc => usableMatch pats oc t)

/-- Loop condition of the second cross-validation loop
(`backend/main.py:114-116`). -/
def tablePred (t : List Char) (e : String × Option Pattern) : Bool :=
  e.1 != "STREET" &&
    (match e.2 with
     | some q => q.src != ".*" && q.pmatch t
     | none => false)

/-- Second loop of the cross-validation in `validate_entity`
(`backend/main.py:114-123`): the first table entry, in insertion order,
that is not `STREET`, has a compiled non-wildcard pattern, and matches. -/
def findTable (pats : Table) (t : List Char) : Option String :=
  (pats.find? (tablePred t)).map (fun e => e.1)

/-- `validate_entity` of `backend/main.py:70-129`: schema validation with
cross-category correction. -/
def validate_entity (pats : Table) (category : String) (text : List Char)
    (confidence : Rat) : Verdict :=
  match lookupPat pats category with
  | none =>
      { valid := false, reason := "Unknown category: " ++ category,
        confidence := confidence, corrected_category := none,
        original_category := none }
  | some none =>
      { valid := false,
        reason := "No validation pattern available for " ++ category,
        confidence := confidence, corrected_category := none,
        original_category := none }
  | some (some pattern) =>
      if pattern.pmatch text then
        { valid := true, reason := "Matches " ++ category ++ " schema pattern",
          confidence := confidence, corrected_category := some category,
          original_category := none }
      else
        match findSpecific pats text with
        | some oc =>
            { valid := true,
              reason := "Cross-validated: matches " ++ oc ++
                " pattern instead of " ++ category,
              confidence := confidence, corrected_category := some oc,
              original_category := some category }
        | none =>
            match findTable pats text with
            | some oc =>
                { valid := true,
                  reason := "Cross-validated: matches " ++ oc ++
                    " pattern instead of " ++ category,
                  confidence := confidence, corrected_category := some oc,
                  original_category := some category }
            | none =>
                { valid := false,
                  reason := "Does not match " ++ category ++
                    " schema pattern: " ++ pattern.src,
                  confidence := confidence, corrected_category := none,
                  original_category := none }

end MainApp

/-- The cross-validation order as the specification describes it: the
prioritized list of specific high-signal categories first, then the
remaining table categories in table order, excluding any category whose
pattern is the universal wildcard. -/
def claimCrossOrder (pats : Table) : List String :=
  MainApp.specific_categories ++
    ((pats.filter (fun e =>
        !(MainApp.specific_categories.contains e.1) &&
          (match e.2 with
           | some q => q.src != ".*"
           | none => true))).map (fun e => e.1))

/-- The first category other than the original whose pattern is present,
compiled and matches the text, in the specification's cross-validation
order. -/
def claimCross (pats : Table) (c : String) (t : List Char) : Option String :=
  (claimCrossOrder pats).find? (fun oc => oc != c && usableMatch pats oc t)

/-- Modelled from the spec: `data_schema.json` itself is not among the
sources, only its loader is. The specification states that the schema's
`STREET` category carries the universal wildcard pattern `.*` ("generic
catch-alls", "like STREET with `.*`"), which is why `validate_entity`
may exclude `STREET` by name. This Boolean condition captures exactly
that fact about a pattern table. -/
def streetWildcard (pats : Table) : Bool :=
  pats.all (fun e =>
    e.1 != "STREET" ||
      (match e.2 with
       | some q => q.src == ".*"
       | none => true))

namespace ValidatedEnhancedPIIDetector

/-- `ValidatedEnhancedPIIDetector.validate_entity` of
`backend/validated_enhanced_main.py:79-108`: the strict schema check
without cross-validation. -/
def validate_entity (pats : Table) (category : String) (text : List Char)
    (confidence : Rat) : Verdict :=
  match lookupPat pats category with
  | none =>
      { valid := false, reason := "Unknown category: " ++ category,
        confidence := confidence, corrected_category := none,
        original_category := none }
  | some none =>
      { valid := false,
        reason := "No validation pattern available for " ++ category,
        confidence := confidence, corrected_category := none,
        original_category := none }
  | some (some pattern) =>
      if pattern.pmatch text then
        { valid := true, reason := "Matches schema pattern",
          confidence := confidence, corrected_category := none,
          original_category := none }
      else
        { valid := false,
          reason := "Does not match schema pattern: " ++ pattern.src,
          confidence := confidence, corrected_category := none,
          original_category := none }

end ValidatedEnhancedPIIDetector

/-- A validated entity as built by the partition loop of
`detect_comprehensive`: the candidate entity together with its
`validation` verdict, its `status` string and, for filtered entities,
the `filter_reason` key. -/
structure VEntity where
  entity : Entity
  validation : Verdict
  status : String
  filter_reason : Option String
deriving DecidableEq

namespace ValidatedEnhancedPIIDetector

/-- The validate-and-partition loop of `detect_comprehensive`
(`backend/validated_enhanced_main.py:194-216`), parameterized by the
accumulated candidate list (regex detections followed by contextual
detections): each candidate goes to the VALID list when its verdict is
valid and its confidence reaches `min_confidence`, and to the FILTERED
list otherwise. -/
def validatePartition (pats : Table) (min_confidence : Rat) :
    List Entity → List VEntity × List VEntity
  | [] => ([], [])
  | e :: rest =>
      let v := validate_entity pats e.entity_group e.word e.score
      let pr := validatePartition pats min_confidence rest
      if v.valid = true ∧ min_confidence ≤ e.score then
        ({ entity := e, validation := v, status := "VALID",
           filter_reason := none } :: pr.1, pr.2)
      else
        (pr.1, { entity := e, validation := v, status := "FILTERED",
                 filter_reason := some v.reason } :: pr.2)

/-- Acceptance condition of the partition loop: `validation['valid'] and
confidence >= min_confidence`. -/
def accepted (pats : Table) (min_confidence : Rat) (e : Entity) : Prop :=
  (validate_entity pats e.entity_group e.word e.score).valid = true ∧
    min_confidence ≤ e.score

instance (pats : Table) (minc : Rat) (e : Entity) :
    Decidable (accepted pats minc e) := by
  unfold accepted; infer_instance

/-- The VALID record built at `backend/validated_enhanced_main.py:202-206`. -/
def mkValid (pats : Table) (e : Entity) : VEntity :=
  { entity := e,
    validation := validate_entity pats e.entity_group e.word e.score,
    status := "VALID", filter_reason := none }

/-- The FILTERED record built at `backend/validated_enhanced_main.py:208-213`. -/
def mkFiltered (pats : Table) (e : Entity) : VEntity :=
  { entity := e,
    validation := validate_entity pats e.entity_group e.word e.score,
    status := "FILTERED",
    filter_reason :=
      some (validate_entity pats e.entity_group e.word e.score).reason }

end ValidatedEnhancedPIIDetector

/-- A raw offset field of one collaborator result: the key is absent or
`None` (defaulting to 0), holds a value coercible to `int`, or holds a
value on which `int(...)` raises. -/
inductive RawInt
  | absent
  | val (n : Int)
  | bad
deriving DecidableEq

/-- A raw score field of one collaborator result: absent or `None`
(defaulting to 0.0), coercible to `float`, or raising on coercion. -/
inductive RawScore
  | absent
  | val (q : Rat)
  | bad
deriving DecidableEq

/-- One labeled span as returned by the token-classification
collaborator, before normalization. -/
structure RawResult where
  entity_group : Option String
  entity : Option String
  score : RawScore
  start : RawInt
  end_ : RawInt
deriving DecidableEq

/-- Value of `int(r.get(k, 0)) if r.get(k) is not None else 0`:
`none` when the coercion raises. -/
def rawIntVal : RawInt → Option Int
  | RawInt.absent => some 0
  | RawInt.val n => some n
  | RawInt.bad => none

/-- Value of `float(r.get("score", 0.0)) if ... else 0.0`: `none` when
the coercion raises. -/
def rawScoreVal : RawScore → Option Rat
  | RawScore.absent => some 0
  | RawScore.val q => some q
  | RawScore.bad => none

/-- Python `r.get("entity_group") or r.get("entity") or "UNKNOWN"`,
with Python truthiness: `None` and the empty string both fall through. -/
def pyOrStr (a b : Option String) : String :=
  match a with
  | some s =>
      if s = "" then
        match b with
        | some t => if t = "" then "UNKNOWN" else t
        | none => "UNKNOWN"
      else s
  | none =>
      match b with
      | some t => if t = "" then "UNKNOWN" else t
      | none => "UNKNOWN"

namespace EnhancedMain

/-- Body of the normalization loop of `_predict`
(`backend/enhanced_main.py:283-301`, identical in
`backend/validated_enhanced_main.py:361-379`): `none` when the per-entity
coercion raises and the result is skipped. The recorded `word` is
reconstructed by slicing the original text at the reported offsets. -/
def normalizeResult (text : List Char) (r : RawResult) : Option Entity :=
  match rawIntVal r.start, rawIntVal r.end_, rawScoreVal r.score with
  | some s, some e, some q =>
      some { entity_group := pyOrStr r.entity_group r.entity, score := q,
             word := pySlice text s e, start := s, end_ := e,
             method := some "ml" }
  | _, _, _ => none

/-- `_predict` of `backend/enhanced_main.py:276-305` (identical in
`backend/validated_enhanced_main.py:354-383`): the collaborator call is
modelled as an `Except` value; a fatal collaborator failure yields the
empty list. -/
def _predict (text : List Char) (pipeRes : Except String (List RawResult)) :
    List Entity :=
  if pyBlank text then []
  else
    match pipeRes with
    | Except.ok rs => rs.filterMap (normalizeResult text)
    | Except.error _ => []

end EnhancedMain

namespace MainApp

/-- Body of the normalization loop of `_predict`
(`backend/main.py:259-279`): as in the enhanced service but without a
`method` key. -/
def normalizeResult (text : List Char) (r : RawResult) : Option Entity :=
  match rawIntVal r.start, rawIntVal r.end_, rawScoreVal r.score with
  | some s, some e, some q =>
      some { entity_group := pyOrStr r.entity_group r.entity, score := q,
             word := pySlice text s e, start := s, end_ := e,
             method := none }
  | _, _, _ => none

/-- `_predict` of `backend/main.py:249-286`: a fatal collaborator failure
is re-raised as an HTTP 500 `Inference error`, modelled as the `error`
case of the returned `Except`. -/
def _predict (text : List Char) (pipeRes : Except String (List RawResult)) :
    Except String (List Entity) :=
  if pyBlank text then Except.ok []
  else
    match pipeRes with
    | Except.ok rs => Except.ok (rs.filterMap (normalizeResult text))
    | Except.error e => Except.error ("Inference error: " ++ e)

end MainApp

/-- Ascending order on candidate start offsets, the key of the fuser's
`entities.sort(key=lambda x: x['start'])`. -/
def entLe (a b : Entity) : Prop := a.start ≤ b.start

/-- Descending order on start offsets, the key of the anonymizer's
`sorted(entities, key=lambda x: x["start"], reverse=True)`. -/
def entGe (a b : Entity) : Prop := b.start ≤ a.start

instance : DecidableRel entLe := fun a b =>
  inferInstanceAs (Decidable (a.start ≤ b.start))

instance : DecidableRel entGe := fun a b =>
  inferInstanceAs (Decidable (b.start ≤ a.start))

instance : IsTotal Entity entLe := ⟨fun a b => Int.le_total a.start b.start⟩

instance : IsTrans Entity entLe := ⟨fun _ _ _ h1 h2 => le_trans h1 h2⟩

instance : IsTotal Entity entGe := ⟨fun a b => Int.le_total b.start a.start⟩

instance : IsTrans Entity entGe := ⟨fun _ _ _ h1 h2 => le_trans h2 h1⟩

namespace EnhancedMain

/-- The merge assignments of `_merge_entities`
(`backend/enhanced_main.py:323-327`, identical in
`enhanced_pii_detector.py:241-245`): extend the current entity's end,
keep the most recent word, the maximal score, and join methods with `+`
when the newcomer carries a `method` key. -/
def mergeStep (current entity : Entity) : Entity :=
  { current with
    end_ := max current.end_ entity.end_,
    word := entity.word,
    score := max current.score entity.score,
    method :=
      match entity.method with
      | some m => some (current.method.getD "" ++ "+" ++ m)
      | none => current.method }

/-- The scan of `_merge_entities` over the tail of the sorted candidate
list (`backend/enhanced_main.py:318-332`), carrying the current open
entity. -/
def mergeLoop (current : Entity) : List Entity → List Entity
  | [] => [current]
  | e :: rest =>
      if e.start < current.end_ ∧ e.entity_group = current.entity_group then
        mergeLoop (mergeStep current e) rest
      else
        current :: mergeLoop e rest

/-- `_merge_entities` of `backend/enhanced_main.py:307-333` (identical in
`enhanced_pii_detector.py:225-251`): stable sort by start ascending,
then a single merging scan. -/
def _merge_entities (entities : List Entity) : List Entity :=
  match List.insertionSort entLe entities with
  | [] => []
  | e :: rest => mergeLoop e rest

end EnhancedMain

/-- One replacement step of the anonymizer:
`redacted = redacted[:s] + replacement + redacted[e:]`. -/
def anonStep (replacement : List Char) (red : List Char) (ent : Entity) :
    List Char :=
  pyTake red ent.start ++ replacement ++ pyDrop red ent.end_

/-- `_anonymize` of `backend/main.py:289-298` (identical in
`backend/enhanced_main.py:335-345` and
`backend/validated_enhanced_main.py:385-395`): no-op on an empty entity
list, otherwise replace spans from the end of the string toward the
beginning. -/
def _anonymize (text : List Char) (entities : List Entity)
    (replacement : List Char) : List Char :=
  if entities.isEmpty then text
  else
    (List.insertionSort entGe entities).foldl (anonStep replacement) text

/-- The character span of an entity, as a pair of list indices. -/
def spanOf (e : Entity) : Nat × Nat := (e.start.toNat, e.end_.toNat)

/-- The redaction of `text` along an ascending list of disjoint spans:
characters between spans are preserved and each span is replaced by the
replacement token exactly once. `prev` is the index up to which the text
has already been emitted. -/
def interleave (text R : List Char) (prev : Nat) :
    List (Nat × Nat) → List Char
  | [] => text.drop prev
  | (s, _e) :: rest =>
      ((text.take s).drop prev) ++ R ++ interleave text R (_e) rest

/-- Well-formed ascending spans: each span starts no earlier than `prev`,
is non-empty, and the walk ends within a text of length `len`. -/
def SpansOK (len : Nat) : Nat → List (Nat × Nat) → Prop
  | prev, [] => prev ≤ len
  | prev, (s, e) :: rest => prev ≤ s ∧ s < e ∧ SpansOK len e rest

/-- The non-overlap relation on two entities' half-open spans. -/
def NoOverlap (a b : Entity) : Prop :=
  a.end_ ≤ b.start ∨ b.end_ ≤ a.start

/-- Two adjacent fused entities that the merging scan would keep apart:
disjoint spans or distinct categories. -/
def NoMerge (a b : Entity) : Prop :=
  ¬(b.start < a.end_ ∧ b.entity_group = a.entity_group)


/-! Concrete data used by witnesses and counterexamples. The patterns are
abstract match predicates standing for compiled schema regexes: a
ten-character test for `TELEPHONENUM`, a fourteen-character test for
`AADHAAR` (the schema shape `dddd dddd dddd`), and the universal
wildcard for `STREET`. -/

/-- A stand-in for the compiled `TELEPHONENUM` schema pattern. -/
def pTEL : Pattern := { src := "tel10", pmatch := fun s => decide (s.length = 10) }

/-- A stand-in for the compiled `AADHAAR` schema pattern. -/
def pAAD : Pattern := { src := "aad14", pmatch := fun s => decide (s.length = 14) }

/-- A stand-in for the compiled wildcard `STREET` schema pattern. -/
def pSTREET : Pattern := { src := ".*", pmatch := fun _ => true }

/-- A small pattern table of the shape the schema loader produces. -/
def pats0 : Table :=
  [("AADHAAR", some pAAD), ("TELEPHONENUM", some pTEL), ("STREET", some pSTREET)]

/-- A ten-digit phone number, as a character list. -/
def t10 : List Char := String.toList "9876543210"

/-- Scenario text for the anonymizer. -/
def textCall : List Char := String.toList "Call 9876543210 now"

/-- The default replacement token. -/
def redTok : List Char := String.toList "[REDACTED]"

/-- The phone-number entity of the anonymizer scenario. -/
def entPhone : Entity :=
  { entity_group := "TELEPHONENUM", word := t10, start := 5, end_ := 15,
    score := 1, method := some "ml" }

/-- A regex-method EMAIL candidate on span 0-9. -/
def entEmailA : Entity :=
  { entity_group := "EMAIL", word := String.toList "arun@x.co", start := 0,
    end_ := 9, score := 95/100, method := some "regex_enhanced" }

/-- An ml-method EMAIL candidate on the same span. -/
def entEmailB : Entity :=
  { entity_group := "EMAIL", word := String.toList "arun@x.co", start := 0,
    end_ := 9, score := 9/10, method := some "ml" }

/-- The entity the adapter emits for a result with absent offsets on the
text `ab`: both offsets default to 0 and the word is the empty slice. -/
def entAbsent : Entity :=
  { entity_group := "GIVENNAME", word := [], start := 0, end_ := 0,
    score := 9/10, method := some "ml" }

/-- The entity the adapter emits for the well-formed result `rawGood` on
the text `ab`. -/
def entGood : Entity :=
  { entity_group := "GIVENNAME", word := String.toList "ab", start := 0,
    end_ := 2, score := 9/10, method := some "ml" }

/-- A collaborator result with absent offsets (they default to 0). -/
def rawAbsent : RawResult :=
  { entity_group := some "GIVENNAME", entity := none,
    score := RawScore.val (9/10), start := RawInt.absent, end_ := RawInt.absent }

/-- A collaborator result whose start offset cannot be coerced to `int`. -/
def rawBadStart : RawResult :=
  { entity_group := some "GIVENNAME", entity := none,
    score := RawScore.val (9/10), start := RawInt.bad, end_ := RawInt.val 2 }

/-- A well-formed collaborator result covering the span 0-2. -/
def rawGood : RawResult :=
  { entity_group := some "GIVENNAME", entity := none,
    score := RawScore.val (9/10), start := RawInt.val 0, end_ := RawInt.val 2 }


section SliceLemmas

lemma take_min_length {α} (l : List α) (n : Nat) :
    l.take (min n l.length) = l.take n := by
  rcases le_total n l.length with h | h
  · rw [min_eq_left h]
  · rw [min_eq_right h, List.take_length, List.take_of_length_le h]

lemma drop_min_length {α} (l : List α) (n : Nat) :
    l.drop (min n l.length) = l.drop n := by
  rcases le_total n l.length with h | h
  · rw [min_eq_left h]
  · rw [min_eq_right h, List.drop_length, List.drop_of_length_le h]

lemma pyTake_of_nonneg (l : List Char) {i : Int} (h : 0 ≤ i) :
    pyTake l i = l.take i.toNat := by
  unfold pyTake sliceIdx
  rw [if_neg (not_lt.mpr h)]
  exact take_min_length l i.toNat

lemma pyDrop_of_nonneg (l : List Char) {i : Int} (h : 0 ≤ i) :
    pyDrop l i = l.drop i.toNat := by
  unfold pyDrop sliceIdx
  rw [if_neg (not_lt.mpr h)]
  exact drop_min_length l i.toNat

lemma pySlice_of_nonneg (l : List Char) {s e : Int} (hs : 0 ≤ s) (he : 0 ≤ e) :
    pySlice l s e = (l.take e.toNat).drop s.toNat := by
  unfold pySlice sliceIdx
  rw [if_neg (not_lt.mpr hs), if_neg (not_lt.mpr he), take_min_length]
  rcases le_total s.toNat l.length with h | h
  · rw [min_eq_left h]
  · rw [min_eq_right h]
    have h1 : (l.take e.toNat).length ≤ l.length := by
      rw [List.length_take]; exact min_le_right _ _
    rw [List.drop_of_length_le h1, List.drop_of_length_le (le_trans h1 h)]

end SliceLemmas

section FindLemmas

lemma find?_congr_mem {α} {p q : α → Bool} :
    ∀ l : List α, (∀ x ∈ l, p x = q x) → l.find? p = l.find? q
  | [], _ => rfl
  | a :: l, h => by
    have ha := h a (List.mem_cons_self a l)
    by_cases hp : p a = true
    · rw [List.find?_cons_of_pos _ hp, List.find?_cons_of_pos _ (ha ▸ hp)]
    · rw [List.find?_cons_of_neg _ hp, List.find?_cons_of_neg _ (ha ▸ hp),
        find?_congr_mem l (fun x hx => h x (List.mem_cons_of_mem a hx))]

lemma lookupPat_of_mem :
    ∀ {pats : Table}, (pats.map Prod.fst).Nodup →
      ∀ {n : String} {op : Option Pattern}, (n, op) ∈ pats →
        lookupPat pats n = some op := by
  intro pats
  induction pats with
  | nil => intro _ n op hm; exact absurd hm (List.not_mem_nil _)
  | cons e rest ih =>
    intro hnd n op hm
    rw [List.map_cons, List.nodup_cons] at hnd
    rcases List.mem_cons.mp hm with he | hm'
    · subst he
      unfold lookupPat
      rw [List.find?_cons_of_pos _ (by simp)]
      rfl
    · have hne : e.1 ≠ n := by
        intro hcontra
        exact hnd.1 (hcontra ▸ List.mem_map_of_mem Prod.fst hm')
      unfold lookupPat
      rw [List.find?_cons_of_neg _ (by simpa using hne)]
      exact ih hnd.2 hm'

lemma mem_of_lookupPat {pats : Table} {c : String} {op : Option Pattern}
    (h : lookupPat pats c = some op) : (c, op) ∈ pats := by
  unfold lookupPat at h
  rcases Option.map_eq_some'.mp h with ⟨e, hfind, hsnd⟩
  have hmem := List.mem_of_find?_eq_some hfind
  have hpred := List.find?_some hfind
  have h1 : e.1 = c := by simpa using hpred
  have : e = (c, op) := by
    cases e; cases h1; cases hsnd; rfl
  exact this ▸ hmem

lemma usableMatch_of_mem_some {pats : Table} (hnd : (pats.map Prod.fst).Nodup)
    {n : String} {q : Pattern} (hm : (n, some q) ∈ pats) (t : List Char) :
    usableMatch pats n t = q.pmatch t := by
  unfold usableMatch
  rw [lookupPat_of_mem hnd hm]

lemma usableMatch_of_mem_none {pats : Table} (hnd : (pats.map Prod.fst).Nodup)
    {n : String} (hm : (n, (none : Option Pattern)) ∈ pats) (t : List Char) :
    usableMatch pats n t = false := by
  unfold usableMatch
  rw [lookupPat_of_mem hnd hm]

end FindLemmas

section InterleaveLemmas

/-- Start of the first span, or the text length for an empty span list. -/
def headStart (len : Nat) : List (Nat × Nat) → Nat
  | [] => len
  | (s, _) :: _ => s

lemma spansOK_le_len {len : Nat} :
    ∀ {l : List (Nat × Nat)} {prev : Nat}, SpansOK len prev l → prev ≤ len := by
  intro l
  induction l with
  | nil => intro prev h; exact h
  | cons p rest ih =>
    intro prev h
    rcases p with ⟨s, e⟩
    exact le_trans (le_trans h.1 (le_of_lt h.2.1)) (ih h.2.2)

lemma spansOK_le_headStart {len : Nat} {prev : Nat} :
    ∀ {l : List (Nat × Nat)}, SpansOK len prev l → prev ≤ headStart len l := by
  intro l h
  cases l with
  | nil => exact h
  | cons p rest => rcases p with ⟨s, e⟩; exact h.1

lemma spansOK_mono {len : Nat} {prev k : Nat} (hk : k ≤ prev) :
    ∀ {l : List (Nat × Nat)}, SpansOK len prev l → SpansOK len k l := by
  intro l h
  cases l with
  | nil => exact le_trans hk h
  | cons p rest =>
    rcases p with ⟨s, e⟩
    exact ⟨le_trans hk h.1, h.2.1, h.2.2⟩

lemma interleave_take (text R : List Char) :
    ∀ (l : List (Nat × Nat)) (prev k : Nat), SpansOK text.length prev l →
      prev ≤ k → k ≤ headStart text.length l →
      (interleave text R prev l).take (k - prev) = (text.take k).drop prev := by
  intro l
  cases l with
  | nil =>
    intro prev k _h hpk hk
    show (text.drop prev).take (k - prev) = (text.take k).drop prev
    rw [List.take_drop, Nat.add_sub_cancel' hpk]
  | cons p rest =>
    intro prev k h hpk hk
    rcases p with ⟨s, e⟩
    have hps : prev ≤ s := h.1
    have hsl : s ≤ text.length := le_trans (le_of_lt h.2.1) (spansOK_le_len h.2.2)
    have hA : ((text.take s).drop prev).length = s - prev := by
      rw [List.length_drop, List.length_take, min_eq_left hsl]
    show (((text.take s).drop prev) ++ R ++ interleave text R e rest).take (k - prev)
        = (text.take k).drop prev
    have hks : k ≤ s := hk
    rw [List.append_assoc,
      List.take_append_of_le_length (by rw [hA]; exact Nat.sub_le_sub_right hks prev),
      List.take_drop, Nat.add_sub_cancel' hpk, List.take_take,
      min_eq_left hks]

lemma interleave_drop (text R : List Char) :
    ∀ (l : List (Nat × Nat)) (prev k : Nat), SpansOK text.length prev l →
      prev ≤ k → k ≤ headStart text.length l →
      (interleave text R prev l).drop (k - prev) = interleave text R k l := by
  intro l
  cases l with
  | nil =>
    intro prev k _h hpk hk
    show (text.drop prev).drop (k - prev) = text.drop k
    rw [List.drop_drop, Nat.add_sub_cancel' hpk]
  | cons p rest =>
    intro prev k h hpk hk
    rcases p with ⟨s, e⟩
    have hsl : s ≤ text.length := le_trans (le_of_lt h.2.1) (spansOK_le_len h.2.2)
    have hA : ((text.take s).drop prev).length = s - prev := by
      rw [List.length_drop, List.length_take, min_eq_left hsl]
    have hks : k ≤ s := hk
    show (((text.take s).drop prev) ++ R ++ interleave text R e rest).drop (k - prev)
        = ((text.take s).drop k) ++ R ++ interleave text R e rest
    rw [List.append_assoc,
      List.drop_append_of_le_length (by rw [hA]; exact Nat.sub_le_sub_right hks prev),
      List.drop_drop, Nat.add_sub_cancel' hpk, List.append_assoc]

lemma interleave_length (text R : List Char) :
    ∀ (l : List (Nat × Nat)) (prev : Nat), SpansOK text.length prev l →
      ((interleave text R prev l).length : Int)
        = ((text.length : Int) - prev) + (l.length : Int) * R.length
            - (l.map (fun p => (p.2 : Int) - (p.1 : Int))).sum := by
  intro l
  induction l with
  | nil =>
    intro prev h
    show ((text.drop prev).length : Int) = _
    rw [List.length_drop]
    have h' : prev ≤ text.length := h
    rw [Nat.cast_sub h']
    simp
  | cons p rest ih =>
    intro prev h
    rcases p with ⟨s, e⟩
    have hps : prev ≤ s := h.1
    have hse : s < e := h.2.1
    have hrest := h.2.2
    have hsl : s ≤ text.length := le_trans (le_of_lt hse) (spansOK_le_len hrest)
    have hrec := ih e hrest
    show ((((text.take s).drop prev) ++ R ++ interleave text R e rest).length : Int) = _
    rw [List.length_append, List.length_append, List.length_drop,
      List.length_take, min_eq_left hsl]
    push_cast [Nat.cast_sub hps, hrec, List.map_cons, List.sum_cons,
      List.length_cons]
    ring

end InterleaveLemmas

section AnonymizeLemmas

lemma entity_end_nonneg {a : Entity} (h : a.start.toNat < a.end_.toNat) :
    0 ≤ a.end_ := by
  by_contra hc
  rw [Int.toNat_of_nonpos (le_of_lt (not_le.mp hc))] at h
  exact Nat.not_lt_zero _ h

/-- Start of the first entity, or the text length for an empty list. -/
def headStartE (len : Nat) : List Entity → Int
  | [] => (len : Int)
  | a :: _ => a.start

lemma spansOK_of_entities (len : Nat) :
    ∀ (l : List Entity),
      (∀ e ∈ l, 0 ≤ e.start ∧ e.start < e.end_ ∧ e.end_ ≤ (len : Int)) →
      l.Chain' (fun a b => a.end_ ≤ b.start) →
      ∀ prev : Nat, (prev : Int) ≤ headStartE len l →
      SpansOK len prev (l.map spanOf) := by
  intro l
  induction l with
  | nil =>
    intro _ _ prev hp
    rw [List.map_nil]
    show prev ≤ len
    have hp' : (prev : Int) ≤ (len : Int) := hp
    exact_mod_cast hp'
  | cons a rest ih =>
    intro hval hchain prev hp
    have ha := hval a (List.mem_cons_self a rest)
    have ha0 : 0 ≤ a.start := ha.1
    have hae : 0 ≤ a.end_ := le_of_lt (lt_of_le_of_lt ha.1 ha.2.1)
    refine ⟨?_, ?_, ?_⟩
    · exact (Int.le_toNat ha0).mpr hp
    · exact (Int.toNat_lt_toNat (lt_of_le_of_lt ha0 ha.2.1)).mpr ha.2.1
    · refine ih (fun e he => hval e (List.mem_cons_of_mem a he))
        (List.Chain'.tail hchain) a.end_.toNat ?_
      cases rest with
      | nil =>
        show ((a.end_.toNat : Int) ≤ (len : Int))
        rw [Int.toNat_of_nonneg hae]
        exact ha.2.2
      | cons b rest' =>
        show ((a.end_.toNat : Int) ≤ b.start)
        rw [Int.toNat_of_nonneg hae]
        exact (List.chain'_cons.mp hchain).1

lemma foldr_anonStep (text R : List Char) :
    ∀ (asc : List Entity),
      (∀ ent ∈ asc, 0 ≤ ent.start) →
      SpansOK text.length 0 (asc.map spanOf) →
      asc.foldr (fun ent red => anonStep R red ent) text
        = interleave text R 0 (asc.map spanOf) := by
  intro asc
  induction asc with
  | nil =>
    intro _ _
    show text = text.drop 0
    rw [List.drop_zero]
  | cons a rest ih =>
    intro hnn hok
    have ha0 : 0 ≤ a.start := hnn a (List.mem_cons_self a rest)
    have hsa : 0 ≤ a.start := ha0
    rcases hok with ⟨-, hlt, hrest⟩
    have hae : 0 ≤ a.end_ := entity_end_nonneg hlt
    have hrest0 : SpansOK text.length 0 (rest.map spanOf) :=
      spansOK_mono (Nat.zero_le _) hrest
    have hhead : a.end_.toNat ≤ headStart text.length (rest.map spanOf) :=
      spansOK_le_headStart hrest
    rw [List.foldr_cons, ih (fun x hx => hnn x (List.mem_cons_of_mem a hx)) hrest0]
    unfold anonStep
    rw [pyTake_of_nonneg _ hsa, pyDrop_of_nonneg _ hae]
    have htake := interleave_take text R (rest.map spanOf) 0 a.start.toNat
      hrest0 (Nat.zero_le _)
      (le_trans (le_of_lt hlt) hhead)
    have hdrop := interleave_drop text R (rest.map spanOf) 0 a.end_.toNat
      hrest0 (Nat.zero_le _) hhead
    rw [Nat.sub_zero] at htake hdrop
    rw [htake, hdrop]
    show (text.take a.start.toNat).drop 0 ++ R ++ _
        = ((text.take a.start.toNat).drop 0) ++ R ++ _
    rfl

/-- Central anonymizer lemma: on pairwise non-overlapping entities with
valid spans, `_anonymize` rewrites the text along the ascending
arrangement of the listed spans, replacing each exactly once. -/
lemma anonymize_eq_interleave (text R : List Char) (entities : List Entity)
    (hval : ∀ e ∈ entities,
      0 ≤ e.start ∧ e.start < e.end_ ∧ e.end_ ≤ (text.length : Int))
    (hno : entities.Pairwise NoOverlap) :
    ∃ asc : List Entity, asc.Perm entities ∧ asc.Sorted entLe ∧
      asc.Chain' (fun a b => a.end_ ≤ b.start) ∧
      SpansOK text.length 0 (asc.map spanOf) ∧
      _anonymize text entities R = interleave text R 0 (asc.map spanOf) := by
  cases hent : entities with
  | nil =>
    refine ⟨[], List.Perm.refl _, List.sorted_nil, List.chain'_nil,
      Nat.zero_le _, ?_⟩
    show text = text.drop 0
    rw [List.drop_zero]
  | cons e0 rest0 =>
    rw [← hent]
    have hne : entities ≠ [] := by rw [hent]; exact List.cons_ne_nil _ _
    set sortD := List.insertionSort entGe entities with hsortD
    have hperm : sortD.reverse.Perm entities :=
      (List.reverse_perm sortD).trans (List.perm_insertionSort entGe entities)
    have hsortedD : sortD.Sorted entGe := List.sorted_insertionSort entGe entities
    have hsortedA : sortD.reverse.Sorted entLe := by
      rw [List.Sorted, List.pairwise_reverse]
      exact hsortedD.imp (fun {a b} h => h)
    have hnoA : sortD.reverse.Pairwise NoOverlap := by
      refine (List.Perm.pairwise_iff ?_ hperm).mpr hno
      intro x y hxy
      rcases hxy with h | h
      · exact Or.inr h
      · exact Or.inl h
    have hvalA : ∀ e ∈ sortD.reverse,
        0 ≤ e.start ∧ e.start < e.end_ ∧ e.end_ ≤ (text.length : Int) :=
      fun e he => hval e (hperm.mem_iff.mp he)
    have hchain : sortD.reverse.Chain' (fun a b => a.end_ ≤ b.start) := by
      refine List.Pairwise.chain' ?_
      refine (hnoA.and hsortedA).imp_of_mem ?_
      intro a b ha hb hab
      rcases hab.1 with h | h
      · exact h
      · exfalso
        have hb' := hvalA b hb
        have : b.end_ ≤ b.start := le_trans h hab.2
        exact absurd (lt_of_lt_of_le hb'.2.1 this) (lt_irrefl _)
    have hok : SpansOK text.length 0 (sortD.reverse.map spanOf) := by
      refine spansOK_of_entities text.length sortD.reverse hvalA hchain 0 ?_
      cases hA : sortD.reverse with
      | nil => show ((0 : Nat) : Int) ≤ (text.length : Int); exact_mod_cast Nat.zero_le _
      | cons a rest =>
        show ((0 : Nat) : Int) ≤ a.start
        have : a ∈ sortD.reverse := by rw [hA]; exact List.mem_cons_self a rest
        exact_mod_cast (hvalA a this).1
    refine ⟨sortD.reverse, hperm, hsortedA, hchain, hok, ?_⟩
    unfold _anonymize
    rw [if_neg (by simpa using hne), ← hsortD]
    conv_lhs => rw [← List.reverse_reverse sortD]
    rw [List.foldl_reverse]
    exact foldr_anonStep text R sortD.reverse
      (fun e he => (hvalA e he).1) hok

end AnonymizeLemmas

section MergeLemmas

lemma mergeStep_start (cur e : Entity) :
    (EnhancedMain.mergeStep cur e).start = cur.start := rfl

lemma mergeStep_group (cur e : Entity) :
    (EnhancedMain.mergeStep cur e).entity_group = cur.entity_group := rfl

lemma mergeLoop_nil (cur : Entity) :
    EnhancedMain.mergeLoop cur [] = [cur] := rfl

lemma mergeLoop_cons (cur e : Entity) (rest : List Entity) :
    EnhancedMain.mergeLoop cur (e :: rest) =
      if e.start < cur.end_ ∧ e.entity_group = cur.entity_group then
        EnhancedMain.mergeLoop (EnhancedMain.mergeStep cur e) rest
      else cur :: EnhancedMain.mergeLoop e rest := rfl

lemma mergeLoop_inv :
    ∀ (rest : List Entity) (cur : Entity),
      rest.Sorted entLe →
      (∀ e ∈ rest, cur.start ≤ e.start) →
      ∃ h t, EnhancedMain.mergeLoop cur rest = h :: t ∧
        h.start = cur.start ∧ h.entity_group = cur.entity_group ∧
        (h :: t).Sorted entLe ∧ (h :: t).Chain' NoMerge ∧
        (h :: t).length ≤ rest.length + 1 := by
  intro rest
  induction rest with
  | nil =>
    intro cur _ _
    exact ⟨cur, [], rfl, rfl, rfl, List.sorted_singleton cur,
      List.chain'_singleton cur, le_rfl⟩
  | cons e rest' ih =>
    intro cur hs hc
    have hs' : rest'.Sorted entLe := (List.sorted_cons.mp hs).2
    have hce : ∀ x ∈ rest', e.start ≤ x.start := (List.sorted_cons.mp hs).1
    by_cases hcond : e.start < cur.end_ ∧ e.entity_group = cur.entity_group
    · have heq : EnhancedMain.mergeLoop cur (e :: rest')
          = EnhancedMain.mergeLoop (EnhancedMain.mergeStep cur e) rest' := by
        rw [mergeLoop_cons, if_pos hcond]
      rcases ih (EnhancedMain.mergeStep cur e) hs'
          (fun x hx => by
            rw [mergeStep_start]
            exact hc x (List.mem_cons_of_mem e hx)) with
        ⟨h, t, h1, h2, h3, h4, h5, h6⟩
      refine ⟨h, t, heq.trans h1, ?_, ?_, h4, h5, ?_⟩
      · rw [h2, mergeStep_start]
      · rw [h3, mergeStep_group]
      · exact le_trans h6 (Nat.succ_le_succ (Nat.le_succ _))
    · have heq : EnhancedMain.mergeLoop cur (e :: rest')
          = cur :: EnhancedMain.mergeLoop e rest' := by
        rw [mergeLoop_cons, if_neg hcond]
      rcases ih e hs' hce with ⟨h, t, h1, h2, h3, h4, h5, h6⟩
      refine ⟨cur, h :: t, by rw [heq, h1], rfl, rfl, ?_, ?_, ?_⟩
      · refine List.sorted_cons.mpr ⟨?_, h4⟩
        intro x hx
        rcases List.mem_cons.mp hx with hxh | hxt
        · subst hxh
          show cur.start ≤ x.start
          rw [h2]
          exact hc e (List.mem_cons_self e rest')
        · have h7 : h.start ≤ x.start := (List.sorted_cons.mp h4).1 x hxt
          have h8 : cur.start ≤ h.start := by
            rw [h2]; exact hc e (List.mem_cons_self e rest')
          exact le_trans h8 h7
      · refine List.chain'_cons.mpr ⟨?_, h5⟩
        show ¬(h.start < cur.end_ ∧ h.entity_group = cur.entity_group)
        rw [h2, h3]
        exact hcond
      · simpa using Nat.succ_le_succ h6

lemma mergeLoop_of_chain :
    ∀ (rest : List Entity) (cur : Entity), (cur :: rest).Chain' NoMerge →
      EnhancedMain.mergeLoop cur rest = cur :: rest := by
  intro rest
  induction rest with
  | nil => intro cur _; rfl
  | cons e rest' ih =>
    intro cur hch
    have h1 : NoMerge cur e := (List.chain'_cons.mp hch).1
    have h2 : (e :: rest').Chain' NoMerge := (List.chain'_cons.mp hch).2
    rw [mergeLoop_cons, if_neg h1, ih e h2]

/-- Central fuser lemma: the merged list is sorted by start, no adjacent
pair of its entities could be merged further, and it is no longer than
the input. -/
lemma merge_sorted_chain (l : List Entity) :
    (EnhancedMain._merge_entities l).Sorted entLe ∧
    (EnhancedMain._merge_entities l).Chain' NoMerge ∧
    (EnhancedMain._merge_entities l).length ≤ l.length := by
  cases hs : List.insertionSort entLe l with
  | nil =>
    have hme : EnhancedMain._merge_entities l = [] := by
      unfold EnhancedMain._merge_entities
      rw [hs]
    rw [hme]
    exact ⟨List.sorted_nil, List.chain'_nil, Nat.zero_le _⟩
  | cons e rest =>
    have hme : EnhancedMain._merge_entities l = EnhancedMain.mergeLoop e rest := by
      unfold EnhancedMain._merge_entities
      rw [hs]
    have hsorted : (e :: rest).Sorted entLe := by
      rw [← hs]; exact List.sorted_insertionSort entLe l
    rcases mergeLoop_inv rest e (List.sorted_cons.mp hsorted).2
        (List.sorted_cons.mp hsorted).1 with ⟨h, t, h1, -, -, h4, h5, h6⟩
    rw [hme, h1]
    refine ⟨h4, h5, ?_⟩
    have hlen : (e :: rest).length = l.length := by
      rw [← hs, List.length_insertionSort]
    rw [← hlen]
    simpa using h6

end MergeLemmas

section CrossValidationLemmas

lemma usableMatch_self_false {pats : Table} {c : String} {t : List Char}
    {p : Pattern} (hlk : lookupPat pats c = some (some p))
    (hpm : p.pmatch t = false) : usableMatch pats c t = false := by
  unfold usableMatch
  rw [hlk]
  exact hpm

lemma crossPointwise (pats : Table) (c : String) (t : List Char) (p : Pattern)
    (hnd : (pats.map Prod.fst).Nodup)
    (hlk : lookupPat pats c = some (some p))
    (hpm : p.pmatch t = false)
    (hstreet : streetWildcard pats = true)
    (hA : ∀ oc ∈ MainApp.specific_categories, usableMatch pats oc t = false) :
    ∀ e ∈ pats,
      (decide ((!(MainApp.specific_categories.contains e.1) &&
          (match e.2 with
           | some q => q.src != ".*"
           | none => true)) = true ∧
        ((e.1 != c) && usableMatch pats e.1 t) = true))
        = MainApp.tablePred t e := by
  intro e he
  rcases e with ⟨n, op⟩
  cases op with
  | none =>
    have hu : usableMatch pats n t = false := usableMatch_of_mem_none hnd he t
    simp [MainApp.tablePred, hu]
  | some q =>
    have hu : usableMatch pats n t = q.pmatch t := usableMatch_of_mem_some hnd he t
    have hstreet' : (n != "STREET" || (q.src == ".*")) = true := by
      simpa using List.all_eq_true.mp hstreet ⟨n, some q⟩ he
    by_cases hq : q.pmatch t = true
    · by_cases hsrc : q.src = ".*"
      · simp [MainApp.tablePred, hu, hq, hsrc]
      · have hnst : (n != "STREET") = true := by
          rcases (Bool.or_eq_true _ _).mp hstreet' with h | h
          · exact h
          · exact absurd (beq_iff_eq.mp h) hsrc
        have hnsp : ¬(n ∈ MainApp.specific_categories) := by
          intro hcon
          have hfalse := hA n hcon
          rw [hu, hq] at hfalse
          exact Bool.true_eq_false ▸ hfalse
        have hnc : (n != c) = true := by
          refine bne_iff_ne.mpr ?_
          intro hcon
          subst hcon
          have h1 : (some (some q) : Option (Option Pattern)) = some (some p) := by
            rw [← lookupPat_of_mem hnd he, hlk]
          have h2 : (some q : Option Pattern) = some p := by injection h1
          have h3 : q = p := by injection h2
          rw [h3, hpm] at hq
          exact Bool.false_ne_true hq
        have hnsp' : MainApp.specific_categories.contains n = false := by
          rw [← Bool.not_eq_true]
          intro hcon
          exact hnsp (List.mem_of_elem_eq_true hcon)
        have hRHS : MainApp.tablePred t (n, some q) = true := by
          show (n != "STREET" && (q.src != ".*" && q.pmatch t)) = true
          rw [hnst, hq, bne_iff_ne.mpr hsrc]
          rfl
        rw [hRHS]
        simp only [decide_eq_true_eq]
        refine ⟨?_, ?_⟩
        · show (!(MainApp.specific_categories.contains n) && (q.src != ".*")) = true
          rw [hnsp', bne_iff_ne.mpr hsrc]
          rfl
        · rw [hnc, Bool.true_and, hu, hq]
    · have hq' : q.pmatch t = false := by
        rw [← Bool.not_eq_true]; exact hq
      simp [MainApp.tablePred, hu, hq']

lemma claimCross_eq (pats : Table) (c : String) (t : List Char) (p : Pattern)
    (hnd : (pats.map Prod.fst).Nodup)
    (hlk : lookupPat pats c = some (some p))
    (hpm : p.pmatch t = false)
    (hstreet : streetWildcard pats = true) :
    claimCross pats c t =
      (MainApp.findSpecific pats t).or (MainApp.findTable pats t) := by
  unfold claimCross claimCrossOrder
  rw [List.find?_append]
  have hself := usableMatch_self_false hlk hpm
  have hphaseA : (MainApp.specific_categories.find?
      (fun oc => oc != c && usableMatch pats oc t))
      = MainApp.findSpecific pats t := by
    unfold MainApp.findSpecific
    apply find?_congr_mem
    intro oc _
    by_cases hoc : oc = c
    · subst hoc
      rw [bne_self_eq_false, Bool.false_and, hself]
    · rw [bne_iff_ne.mpr hoc, Bool.true_and]
  rw [hphaseA]
  cases hfs : MainApp.findSpecific pats t with
  | some oc => rfl
  | none =>
    rw [Option.none_or]
    have hAmem : ∀ oc ∈ MainApp.specific_categories,
        usableMatch pats oc t = false := by
      intro oc hoc
      have := List.find?_eq_none.mp (by
        unfold MainApp.findSpecific at hfs
        exact hfs) oc hoc
      rw [← Bool.not_eq_true]
      exact this
    rw [List.find?_map, List.find?_filter]
    unfold MainApp.findTable
    exact congrArg (Option.map (fun e => e.1))
      (find?_congr_mem pats
        (crossPointwise pats c t p hnd hlk hpm hstreet hAmem))

end CrossValidationLemmas

section MLHelperLemmas

lemma filterMap_length_eq_filter {α β : Type} (f : α → Option β) :
    ∀ l : List α,
      (l.filterMap f).length = (l.filter (fun x => (f x).isSome)).length := by
  intro l
  induction l with
  | nil => rfl
  | cons a l ih =>
    cases hf : f a with
    | none => simp [List.filterMap_cons, List.filter_cons, hf, ih]
    | some b => simp [List.filterMap_cons, List.filter_cons, hf, ih]

lemma normalizeResult_enhanced_none (t : List Char) (r : RawResult)
    (h : rawIntVal r.start = none ∨ rawIntVal r.end_ = none) :
    EnhancedMain.normalizeResult t r = none := by
  unfold EnhancedMain.normalizeResult
  rcases h with h | h
  · rw [h]
  · rw [h]
    cases rawIntVal r.start <;> rfl

lemma normalizeResult_main_none (t : List Char) (r : RawResult)
    (h : rawIntVal r.start = none ∨ rawIntVal r.end_ = none) :
    MainApp.normalizeResult t r = none := by
  unfold MainApp.normalizeResult
  rcases h with h | h
  · rw [h]
  · rw [h]
    cases rawIntVal r.start <;> rfl

end MLHelperLemmas

/-- Claim C4: `merge` sorts candidates by start ascending with a stable
sort and scans once with a current open entity; an overlapping
(`next.start < current.end`) same-category candidate is merged into the
current entity (end becomes the maximum of the two ends, score the
maximum of the two scores, text the most recently examined candidate's
text, method the two methods joined by `+`); a non-overlapping or
different-category candidate closes the current entity and becomes the
new current one; the final open entity is flushed; the empty input list
returns an empty list without error. -/
theorem C4_merge_algorithm :
    EnhancedMain._merge_entities ([] : List Entity) = [] ∧
    (∀ (l : List Entity) (e : Entity) (rest : List Entity),
      List.insertionSort entLe l = e :: rest →
      EnhancedMain._merge_entities l = EnhancedMain.mergeLoop e rest) ∧
    (∀ cur : Entity, EnhancedMain.mergeLoop cur [] = [cur]) ∧
    (∀ (cur e : Entity) (rest : List Entity) (cm em : String),
      cur.method = some cm → e.method = some em →
      e.start < cur.end_ → e.entity_group = cur.entity_group →
      EnhancedMain.mergeLoop cur (e :: rest)
        = EnhancedMain.mergeLoop
            { cur with
                end_ := max cur.end_ e.end_, word := e.word,
                score := max cur.score e.score,
                method := some (cm ++ "+" ++ em) } rest) ∧
    (∀ (cur e : Entity) (rest : List Entity),
      ¬(e.start < cur.end_ ∧ e.entity_group = cur.entity_group) →
      EnhancedMain.mergeLoop cur (e :: rest)
        = cur :: EnhancedMain.mergeLoop e rest) := by
  refine ⟨rfl, ?_, fun cur => rfl, ?_, ?_⟩
  · intro l e rest h
    unfold EnhancedMain._merge_entities
    rw [h]
  · intro cur e rest cm em hcm hem hov hgr
    rw [mergeLoop_cons, if_pos ⟨hov, hgr⟩]
    have hstep : EnhancedMain.mergeStep cur e
        = { cur with
              end_ := max cur.end_ e.end_, word := e.word,
              score := max cur.score e.score,
              method := some (cm ++ "+" ++ em) } := by
      unfold EnhancedMain.mergeStep
      rw [hcm, hem]
      rfl
    rw [hstep]
  · intro cur e rest h
    rw [mergeLoop_cons, if_neg h]

/-- Claim C4 witness: two overlapping same-span EMAIL candidates, one
from the regex detector and one from the ML adapter, fuse into a single
entity whose method is `regex_enhanced+ml`, via the clauses of
`C4_merge_algorithm` at these concrete inputs. -/
theorem C4_merge_algorithm_witness :
    List.insertionSort entLe [entEmailA, entEmailB] = entEmailA :: [entEmailB] ∧
    entEmailA.method = some "regex_enhanced" ∧ entEmailB.method = some "ml" ∧
    entEmailB.start < entEmailA.end_ ∧
    entEmailB.entity_group = entEmailA.entity_group ∧
    EnhancedMain._merge_entities [entEmailA, entEmailB]
      = [{ entEmailA with
             end_ := max entEmailA.end_ entEmailB.end_,
             word := entEmailB.word,
             score := max entEmailA.score entEmailB.score,
             method := some ("regex_enhanced" ++ "+" ++ "ml") }] := by
  refine ⟨rfl, rfl, rfl, by decide, by decide, ?_⟩
  rw [(C4_merge_algorithm).2.1 [entEmailA, entEmailB] entEmailA [entEmailB]
      rfl,
    (C4_merge_algorithm).2.2.2.1 entEmailA entEmailB [] "regex_enhanced" "ml"
      rfl rfl (by decide) (by decide),
    (C4_merge_algorithm).2.2.1]

/-- Claim C8: `merge` is idempotent — applying `_merge_entities` to its
own output changes nothing, as no further merging is possible on an
already-merged list. -/
theorem C8_merge_idempotent (l : List Entity) :
    EnhancedMain._merge_entities (EnhancedMain._merge_entities l)
      = EnhancedMain._merge_entities l := by
  obtain ⟨hsort, hchain, -⟩ := merge_sorted_chain l
  cases hO : EnhancedMain._merge_entities l with
  | nil => rfl
  | cons h t =>
    rw [hO] at hsort hchain
    unfold EnhancedMain._merge_entities
    rw [List.Sorted.insertionSort_eq hsort]
    exact mergeLoop_of_chain t h hchain

/-- Claim C10: for every input candidate list, the output of
`_merge_entities` is ordered by non-decreasing start offset and never
exceeds the input list in length. -/
theorem C10_merge_sorted_length (l : List Entity) :
    (EnhancedMain._merge_entities l).Sorted entLe ∧
    (EnhancedMain._merge_entities l).length ≤ l.length :=
  ⟨(merge_sorted_chain l).1, (merge_sorted_chain l).2.2⟩

/-- Claim C9: for a fixed category and text, the `valid` flag of the
verdict is identical for any two confidence values — in both the
cross-validating validator of the main service and the strict validator
of the validated-enhanced service — and the verdict's `confidence` field
always equals the confidence passed in. -/
theorem C9_confidence_independence (pats : Table) (c : String) (t : List Char)
    (q1 q2 : Rat) :
    (MainApp.validate_entity pats c t q1).valid
      = (MainApp.validate_entity pats c t q2).valid ∧
    (ValidatedEnhancedPIIDetector.validate_entity pats c t q1).valid
      = (ValidatedEnhancedPIIDetector.validate_entity pats c t q2).valid ∧
    (MainApp.validate_entity pats c t q1).confidence = q1 ∧
    (ValidatedEnhancedPIIDetector.validate_entity pats c t q1).confidence
      = q1 := by
  refine ⟨?_, ?_, ?_, ?_⟩
  · unfold MainApp.validate_entity
    cases hlk : lookupPat pats c with
    | none => rfl
    | some op =>
      cases op with
      | none => rfl
      | some p =>
        by_cases hp : p.pmatch t = true
        · simp only [hp, if_true]
        · simp only [hp, if_false, Bool.false_eq_true]
          cases hfs : MainApp.findSpecific pats t with
          | some oc => rfl
          | none =>
            cases hft : MainApp.findTable pats t with
            | some oc => rfl
            | none => rfl
  · unfold ValidatedEnhancedPIIDetector.validate_entity
    cases hlk : lookupPat pats c with
    | none => rfl
    | some op =>
      cases op with
      | none => rfl
      | some p =>
        by_cases hp : p.pmatch t = true
        · simp only [hp, if_true]
        · simp only [hp, if_false, Bool.false_eq_true]
  · unfold MainApp.validate_entity
    cases hlk : lookupPat pats c with
    | none => rfl
    | some op =>
      cases op with
      | none => rfl
      | some p =>
        by_cases hp : p.pmatch t = true
        · simp only [hp, if_true]
        · simp only [hp, if_false, Bool.false_eq_true]
          cases hfs : MainApp.findSpecific pats t with
          | some oc => rfl
          | none =>
            cases hft : MainApp.findTable pats t with
            | some oc => rfl
            | none => rfl
  · unfold ValidatedEnhancedPIIDetector.validate_entity
    cases hlk : lookupPat pats c with
    | none => rfl
    | some op =>
      cases op with
      | none => rfl
      | some p =>
        by_cases hp : p.pmatch t = true
        · simp only [hp, if_true]
        · simp only [hp, if_false, Bool.false_eq_true]

/-- Claim C3: in comprehensive detection, the validate-and-partition
loop places every candidate entity in exactly one of the two output
lists: the VALID list holds, in order, exactly the candidates whose
verdict is valid and whose confidence reaches `min_confidence`
(each packaged by `mkValid`), the FILTERED list holds exactly the
others (each packaged by `mkFiltered`, whose `filter_reason` is the
verdict's reason), and the two list lengths sum to the number of
candidates. -/
theorem C3_partition (pats : Table) (minc : Rat) (cands : List Entity) :
    (ValidatedEnhancedPIIDetector.validatePartition pats minc cands).1
      = (cands.filter (fun e =>
          decide (ValidatedEnhancedPIIDetector.accepted pats minc e))).map
          (ValidatedEnhancedPIIDetector.mkValid pats) ∧
    (ValidatedEnhancedPIIDetector.validatePartition pats minc cands).2
      = (cands.filter (fun e =>
          !decide (ValidatedEnhancedPIIDetector.accepted pats minc e))).map
          (ValidatedEnhancedPIIDetector.mkFiltered pats) ∧
    (ValidatedEnhancedPIIDetector.validatePartition pats minc cands).1.length
      + (ValidatedEnhancedPIIDetector.validatePartition pats minc cands).2.length
      = cands.length := by
  induction cands with
  | nil => exact ⟨rfl, rfl, rfl⟩
  | cons e rest ih =>
    have hcons : ValidatedEnhancedPIIDetector.validatePartition pats minc
        (e :: rest)
        = if ValidatedEnhancedPIIDetector.accepted pats minc e then
            (ValidatedEnhancedPIIDetector.mkValid pats e ::
              (ValidatedEnhancedPIIDetector.validatePartition pats minc rest).1,
             (ValidatedEnhancedPIIDetector.validatePartition pats minc rest).2)
          else
            ((ValidatedEnhancedPIIDetector.validatePartition pats minc rest).1,
             ValidatedEnhancedPIIDetector.mkFiltered pats e ::
              (ValidatedEnhancedPIIDetector.validatePartition pats minc rest).2)
        := rfl
    by_cases hacc : ValidatedEnhancedPIIDetector.accepted pats minc e
    · rw [hcons, if_pos hacc]
      refine ⟨?_, ?_, ?_⟩
      · rw [List.filter_cons, if_pos (by rw [decide_eq_true hacc])]
        rw [List.map_cons, ih.1]
      · rw [List.filter_cons,
          if_neg (by rw [decide_eq_true hacc]; exact Bool.false_ne_true)]
        exact ih.2.1
      · show ((ValidatedEnhancedPIIDetector.validatePartition pats minc
            rest).1.length + 1)
            + (ValidatedEnhancedPIIDetector.validatePartition pats minc
              rest).2.length = rest.length + 1
        have hlen := ih.2.2
        omega
    · rw [hcons, if_neg hacc]
      refine ⟨?_, ?_, ?_⟩
      · rw [List.filter_cons,
          if_neg (by rw [decide_eq_false hacc]; exact Bool.false_ne_true)]
        exact ih.1
      · rw [List.filter_cons, if_pos (by rw [decide_eq_false hacc]; rfl)]
        rw [List.map_cons, ih.2.1]
      · show (ValidatedEnhancedPIIDetector.validatePartition pats minc
            rest).1.length
            + ((ValidatedEnhancedPIIDetector.validatePartition pats minc
              rest).2.length + 1) = rest.length + 1
        have hlen := ih.2.2
        omega

/-- Claim C2: `_anonymize` returns the input text unchanged when the
entity list is empty; otherwise it processes the entities in descending
order of start and replaces each `[start, end)` span with the
replacement string, so that for pairwise non-overlapping entities with
spans inside the text there is an ascending arrangement `asc` of exactly
the listed entities along which every listed span of the original text
is replaced by the replacement token exactly once and all other
characters are preserved (the `interleave` normal form). -/
theorem C2_anonymize (text R : List Char) (entities : List Entity)
    (hval : ∀ e ∈ entities,
      0 ≤ e.start ∧ e.start < e.end_ ∧ e.end_ ≤ (text.length : Int))
    (hno : entities.Pairwise NoOverlap) :
    _anonymize text [] R = text ∧
    ∃ asc : List Entity, asc.Perm entities ∧ asc.Sorted entLe ∧
      asc.Chain' (fun a b => a.end_ ≤ b.start) ∧
      _anonymize text entities R = interleave text R 0 (asc.map spanOf) := by
  obtain ⟨asc, h1, h2, h3, -, h5⟩ :=
    anonymize_eq_interleave text R entities hval hno
  exact ⟨rfl, asc, h1, h2, h3, h5⟩

/-- Claim C2 witness: anonymizing `Call 9876543210 now` with the single
entity spanning characters 5-15, at the hypotheses and conclusion of
`C2_anonymize`. -/
theorem C2_anonymize_witness :
    (∀ e ∈ [entPhone],
      0 ≤ e.start ∧ e.start < e.end_ ∧ e.end_ ≤ ((textCall.length : Nat) : Int)) ∧
    [entPhone].Pairwise NoOverlap ∧
    (_anonymize textCall [] redTok = textCall ∧
      ∃ asc : List Entity, asc.Perm [entPhone] ∧ asc.Sorted entLe ∧
        asc.Chain' (fun a b => a.end_ ≤ b.start) ∧
        _anonymize textCall [entPhone] redTok
          = interleave textCall redTok 0 (asc.map spanOf)) ∧
    _anonymize textCall [entPhone] redTok
      = String.toList "Call [REDACTED] now" :=
  ⟨by decide, by simp [List.pairwise_singleton],
   C2_anonymize textCall redTok [entPhone] (by decide)
     (by simp [List.pairwise_singleton]), rfl⟩

/-- Claim C7: for every text, replacement string and set of pairwise
non-overlapping entities with valid spans, the length of the anonymized
text equals the length of the text, minus the sum of the span lengths
`end - start`, plus the number of entities times the replacement
length. -/
theorem C7_anonymize_length (text R : List Char) (entities : List Entity)
    (hval : ∀ e ∈ entities,
      0 ≤ e.start ∧ e.start < e.end_ ∧ e.end_ ≤ (text.length : Int))
    (hno : entities.Pairwise NoOverlap) :
    ((_anonymize text entities R).length : Int)
      = (text.length : Int)
        - (entities.map (fun e => e.end_ - e.start)).sum
        + (entities.length : Int) * (R.length : Int) := by
  obtain ⟨asc, hperm, -, -, hok, heq⟩ :=
    anonymize_eq_interleave text R entities hval hno
  rw [heq, interleave_length text R (asc.map spanOf) 0 hok]
  have hsum : ((asc.map spanOf).map (fun p => (p.2 : Int) - (p.1 : Int))).sum
      = (entities.map (fun e => e.end_ - e.start)).sum := by
    rw [List.map_map]
    have hpt : asc.map ((fun p => ((p.2 : Nat) : Int) - ((p.1 : Nat) : Int))
        ∘ spanOf) = asc.map (fun e => e.end_ - e.start) := by
      refine List.map_congr_left ?_
      intro a ha
      have hb := hval a (hperm.mem_iff.mp ha)
      show ((a.end_.toNat : Nat) : Int) - ((a.start.toNat : Nat) : Int)
          = a.end_ - a.start
      rw [Int.toNat_of_nonneg (le_of_lt (lt_of_le_of_lt hb.1 hb.2.1)),
        Int.toNat_of_nonneg hb.1]
    rw [hpt]
    exact (hperm.map (fun e => e.end_ - e.start)).sum_eq
  rw [hsum, List.length_map, hperm.length_eq]
  push_cast
  ring

/-- Claim C7 witness: the length identity of `C7_anonymize_length` at
the concrete anonymizer scenario (text length 19, one span of length 10,
replacement length 10). -/
theorem C7_anonymize_length_witness :
    (∀ e ∈ [entPhone],
      0 ≤ e.start ∧ e.start < e.end_ ∧ e.end_ ≤ ((textCall.length : Nat) : Int)) ∧
    [entPhone].Pairwise NoOverlap ∧
    ((_anonymize textCall [entPhone] redTok).length : Int)
      = (textCall.length : Int)
        - ([entPhone].map (fun e => e.end_ - e.start)).sum
        + (([entPhone].length : Nat) : Int) * (redTok.length : Int) :=
  ⟨by decide, by simp [List.pairwise_singleton],
   C7_anonymize_length textCall redTok [entPhone] (by decide)
     (by simp [List.pairwise_singleton])⟩

/-- Claim C5, counterexample: the ML adapter does not guarantee
`start < end` for every emitted entity. A collaborator result whose
offset keys are absent is normalized with both offsets defaulting to 0
and is emitted (not dropped), so the emitted entity violates
`0 ≤ start < end`. -/
theorem C5_counterexample :
    EnhancedMain.normalizeResult (String.toList "ab") rawAbsent
      = some entAbsent ∧
    ¬(entAbsent.start < entAbsent.end_) :=
  ⟨rfl, by decide⟩

/-- Claim C5 (amended): every entity emitted by the ML adapter records
as its `word` exactly the slice of the original text at its own
offsets (Python slice semantics), and whenever the collaborator-reported
offsets themselves satisfy `0 ≤ start < end ≤ len(text)` the emitted
entity satisfies `0 ≤ start < end ≤ len(text)` with `word` equal to
`text[start:end]` taken on the original string; without that proviso the
bounds can fail (absent offsets default to 0). -/
theorem C5_ml_word_reconstruction (text : List Char) (r : RawResult)
    (e : Entity) (h : EnhancedMain.normalizeResult text r = some e) :
    e.word = pySlice text e.start e.end_ ∧
    (∀ s en : Int, rawIntVal r.start = some s → rawIntVal r.end_ = some en →
      0 ≤ s → s < en → en ≤ (text.length : Int) →
      0 ≤ e.start ∧ e.start < e.end_ ∧ e.end_ ≤ (text.length : Int) ∧
      e.word = (text.take en.toNat).drop s.toNat) := by
  cases h1 : rawIntVal r.start with
  | none =>
    rw [normalizeResult_enhanced_none text r (Or.inl h1)] at h
    exact Option.noConfusion h
  | some s0 =>
    cases h2 : rawIntVal r.end_ with
    | none =>
      rw [normalizeResult_enhanced_none text r (Or.inr h2)] at h
      exact Option.noConfusion h
    | some e0 =>
      cases h3 : rawScoreVal r.score with
      | none =>
        unfold EnhancedMain.normalizeResult at h
        rw [h1, h2, h3] at h
        exact Option.noConfusion h
      | some q0 =>
        unfold EnhancedMain.normalizeResult at h
        rw [h1, h2, h3] at h
        injection h with he
        subst he
        refine ⟨rfl, ?_⟩
        intro s en hs hen hs0 hsen henl
        have hss : s = s0 := by
          injection hs with hs'
          exact hs'.symm
        have hee : en = e0 := by
          injection hen with hen'
          exact hen'.symm
        subst hss
        subst hee
        refine ⟨hs0, hsen, henl, ?_⟩
        show pySlice text s en = (text.take en.toNat).drop s.toNat
        exact pySlice_of_nonneg text hs0 (le_trans hs0 (le_of_lt hsen))

/-- Claim C5 witness: a well-formed collaborator result with offsets 0-2
on the text `ab`, at the hypotheses and conclusion of
`C5_ml_word_reconstruction`. -/
theorem C5_ml_word_reconstruction_witness :
    EnhancedMain.normalizeResult (String.toList "ab") rawGood
      = some entGood ∧
    (entGood.word = pySlice (String.toList "ab") entGood.start entGood.end_ ∧
     (∀ s en : Int, rawIntVal rawGood.start = some s →
        rawIntVal rawGood.end_ = some en →
        0 ≤ s → s < en → en ≤ ((String.toList "ab").length : Int) →
        0 ≤ entGood.start ∧ entGood.start < entGood.end_ ∧
          entGood.end_ ≤ ((String.toList "ab").length : Int) ∧
          entGood.word
            = ((String.toList "ab").take en.toNat).drop s.toNat)) :=
  ⟨rfl, C5_ml_word_reconstruction (String.toList "ab") rawGood entGood rfl⟩

/-- Claim C6, counterexample: in `backend/main.py` a fatal collaborator
failure is not converted into an empty entity list — `_predict`
re-raises it as an HTTP 500 `Inference error`, a request failure. -/
theorem C6_counterexample :
    MainApp._predict (String.toList "hi") (Except.error "boom")
      = Except.error "Inference error: boom" ∧
    MainApp._predict (String.toList "hi") (Except.error "boom")
      ≠ Except.ok [] := by
  refine ⟨rfl, ?_⟩
  intro hcon
  rw [show MainApp._predict (String.toList "hi") (Except.error "boom")
      = Except.error "Inference error: boom" from rfl] at hcon
  exact Except.noConfusion hcon

/-- Claim C6 (amended): in the enhanced and validated-enhanced services
a fatal collaborator failure makes the adapter return an empty list
(never a request failure), while the main service's adapter instead
propagates it as an HTTP 500 inference error; in every adapter a single
per-entity result whose offsets cannot be coerced to integers is dropped
silently and the remaining results are still returned (the output is the
elementwise normalization of exactly the coercible results). -/
theorem C6_ml_failure_handling (t : List Char) (m : String)
    (rs : List RawResult) (r : RawResult)
    (hbad : rawIntVal r.start = none ∨ rawIntVal r.end_ = none)
    (hnb : pyBlank t = false) :
    EnhancedMain._predict t (Except.error m) = [] ∧
    EnhancedMain._predict t (Except.ok rs)
      = rs.filterMap (EnhancedMain.normalizeResult t) ∧
    EnhancedMain.normalizeResult t r = none ∧
    MainApp.normalizeResult t r = none ∧
    (EnhancedMain._predict t (Except.ok rs)).length
      = (rs.filter (fun x =>
          (EnhancedMain.normalizeResult t x).isSome)).length ∧
    MainApp._predict t (Except.ok rs)
      = Except.ok (rs.filterMap (MainApp.normalizeResult t)) ∧
    MainApp._predict t (Except.error m)
      = Except.error ("Inference error: " ++ m) := by
  have hE : EnhancedMain._predict t (Except.ok rs)
      = rs.filterMap (EnhancedMain.normalizeResult t) := by
    unfold EnhancedMain._predict
    rw [hnb]
    rfl
  refine ⟨?_, hE, normalizeResult_enhanced_none t r hbad,
    normalizeResult_main_none t r hbad, ?_, ?_, ?_⟩
  · unfold EnhancedMain._predict
    rw [hnb]
    rfl
  · rw [hE]
    exact filterMap_length_eq_filter (EnhancedMain.normalizeResult t) rs
  · unfold MainApp._predict
    rw [hnb]
    rfl
  · unfold MainApp._predict
    rw [hnb]
    rfl

/-- Claim C6 witness: the amended failure-handling facts at the concrete
text `hi`, failure message `boom`, result list holding one result with
an uncoercible start offset and one well-formed result. -/
theorem C6_ml_failure_handling_witness :
    (rawIntVal rawBadStart.start = none ∨ rawIntVal rawBadStart.end_ = none) ∧
    pyBlank (String.toList "hi") = false ∧
    (EnhancedMain._predict (String.toList "hi") (Except.error "boom") = [] ∧
     EnhancedMain._predict (String.toList "hi")
        (Except.ok [rawBadStart, rawGood])
       = [rawBadStart, rawGood].filterMap
           (EnhancedMain.normalizeResult (String.toList "hi")) ∧
     EnhancedMain.normalizeResult (String.toList "hi") rawBadStart = none ∧
     MainApp.normalizeResult (String.toList "hi") rawBadStart = none ∧
     (EnhancedMain._predict (String.toList "hi")
        (Except.ok [rawBadStart, rawGood])).length
       = ([rawBadStart, rawGood].filter (fun x =>
           (EnhancedMain.normalizeResult (String.toList "hi") x).isSome)).length ∧
     MainApp._predict (String.toList "hi") (Except.ok [rawBadStart, rawGood])
       = Except.ok ([rawBadStart, rawGood].filterMap
           (MainApp.normalizeResult (String.toList "hi"))) ∧
     MainApp._predict (String.toList "hi") (Except.error "boom")
       = Except.error ("Inference error: " ++ "boom")) :=
  ⟨Or.inl rfl, rfl,
   C6_ml_failure_handling (String.toList "hi") "boom" [rawBadStart, rawGood]
     rawBadStart (Or.inl rfl) rfl⟩

/-- Claim C1, counterexample: the validator of the validated-enhanced
service, also named by the claim, does not behave as the claim states:
on a direct pattern match it returns a valid verdict WITHOUT
`corrected_category`, and on a mismatch it performs no cross-validation
at all — here the text matches another category's pattern
(`TELEPHONENUM`) yet the verdict is invalid. -/
theorem C1_counterexample :
    (ValidatedEnhancedPIIDetector.validate_entity pats0 "TELEPHONENUM" t10
      (9/10)).valid = true ∧
    (ValidatedEnhancedPIIDetector.validate_entity pats0 "TELEPHONENUM" t10
      (9/10)).corrected_category ≠ some "TELEPHONENUM" ∧
    usableMatch pats0 "TELEPHONENUM" t10 = true ∧
    (ValidatedEnhancedPIIDetector.validate_entity pats0 "AADHAAR" t10
      (9/10)).valid = false := by
  refine ⟨by decide, ?_, by decide, by decide⟩
  intro hcon
  rw [show (ValidatedEnhancedPIIDetector.validate_entity pats0 "TELEPHONENUM"
      t10 (9/10)).corrected_category = none by decide] at hcon
  exact Option.noConfusion hcon

/-- Claim C1 (amended): for the cross-validating validator of the main
service, over any pattern table with distinct category names in which
`STREET` is the wildcard category (as the specification states of the
schema): for every known category whose pattern compiled, a text the
category's pattern matches from the start yields a valid verdict with
`corrected_category` equal to the category; on a mismatch,
cross-validation tries every other category's pattern — the prioritized
specific list first, then the remaining table categories in table
order, excluding wildcard-pattern categories — and the first other
matching category yields a valid verdict with `corrected_category` set
to it and `original_category` preserved; if no category matches, the
verdict is invalid. The strict validator of the validated-enhanced
service instead returns a valid verdict without `corrected_category` on
a match and an invalid verdict without any cross-validation on a
mismatch. -/
theorem C1_validate_cross_validation (pats : Table) (c : String)
    (t : List Char) (conf : Rat) (p : Pattern)
    (hnd : (pats.map Prod.fst).Nodup)
    (hlk : lookupPat pats c = some (some p))
    (hstreet : streetWildcard pats = true) :
    (p.pmatch t = true →
      MainApp.validate_entity pats c t conf =
        { valid := true, reason := "Matches " ++ c ++ " schema pattern",
          confidence := conf, corrected_category := some c,
          original_category := none }) ∧
    (p.pmatch t = false →
      match claimCross pats c t with
      | some oc =>
          MainApp.validate_entity pats c t conf =
            { valid := true,
              reason := "Cross-validated: matches " ++ oc ++
                " pattern instead of " ++ c,
              confidence := conf, corrected_category := some oc,
              original_category := some c }
      | none => (MainApp.validate_entity pats c t conf).valid = false) ∧
    (p.pmatch t = true →
      ValidatedEnhancedPIIDetector.validate_entity pats c t conf =
        { valid := true, reason := "Matches schema pattern",
          confidence := conf, corrected_category := none,
          original_category := none }) ∧
    (p.pmatch t = false →
      (ValidatedEnhancedPIIDetector.validate_entity pats c t conf).valid
        = false) := by
  refine ⟨?_, ?_, ?_, ?_⟩
  · intro hpm
    unfold MainApp.validate_entity
    rw [hlk]
    show (if p.pmatch t = true then _ else _) = _
    rw [if_pos hpm]
  · intro hpm
    have hpm' : ¬ p.pmatch t = true := by
      rw [hpm]; exact Bool.false_ne_true
    rw [claimCross_eq pats c t p hnd hlk hpm hstreet]
    cases hfs : MainApp.findSpecific pats t with
    | some oc =>
      have hv : MainApp.validate_entity pats c t conf =
          { valid := true,
            reason := "Cross-validated: matches " ++ oc ++
              " pattern instead of " ++ c,
            confidence := conf, corrected_category := some oc,
            original_category := some c } := by
        unfold MainApp.validate_entity
        rw [hlk]
        show (if p.pmatch t = true then _ else _) = _
        rw [if_neg hpm', hfs]
      exact hv
    | none =>
      cases hft : MainApp.findTable pats t with
      | some oc =>
        have hv : MainApp.validate_entity pats c t conf =
            { valid := true,
              reason := "Cross-validated: matches " ++ oc ++
                " pattern instead of " ++ c,
              confidence := conf, corrected_category := some oc,
              original_category := some c } := by
          unfold MainApp.validate_entity
          rw [hlk]
          show (if p.pmatch t = true then _ else _) = _
          rw [if_neg hpm', hfs, hft]
        exact hv
      | none =>
        have hv : (MainApp.validate_entity pats c t conf).valid = false := by
          unfold MainApp.validate_entity
          rw [hlk]
          show (if p.pmatch t = true then (_ : Verdict) else _).valid = false
          rw [if_neg hpm', hfs, hft]
        exact hv
  · intro hpm
    unfold ValidatedEnhancedPIIDetector.validate_entity
    rw [hlk]
    show (if p.pmatch t = true then _ else _) = _
    rw [if_pos hpm]
  · intro hpm
    unfold ValidatedEnhancedPIIDetector.validate_entity
    rw [hlk]
    show (if p.pmatch t = true then (_ : Verdict) else _).valid = false
    rw [if_neg (by rw [hpm]; exact Bool.false_ne_true)]

/-- Claim C1 witness: the scenario of the specification — a ten-digit
number labeled `AADHAAR` fails the Aadhaar pattern, cross-validation
matches the prioritized `TELEPHONENUM` pattern, and the verdict is valid
with the corrected category and the original category preserved — via
`C1_validate_cross_validation` at the concrete table `pats0`. -/
theorem C1_validate_cross_validation_witness :
    (pats0.map Prod.fst).Nodup ∧
    lookupPat pats0 "AADHAAR" = some (some pAAD) ∧
    streetWildcard pats0 = true ∧
    pAAD.pmatch t10 = false ∧
    MainApp.validate_entity pats0 "AADHAAR" t10 (7/10) =
      { valid := true,
        reason := "Cross-validated: matches " ++ "TELEPHONENUM" ++
          " pattern instead of " ++ "AADHAAR",
        confidence := 7/10, corrected_category := some "TELEPHONENUM",
        original_category := some "AADHAAR" } := by
  refine ⟨by decide, rfl, by decide, by decide, ?_⟩
  have h := (C1_validate_cross_validation pats0 "AADHAAR" t10 (7/10) pAAD
    (by decide) rfl (by decide)).2.1 (by decide)
  rw [show claimCross pats0 "AADHAAR" t10 = some "TELEPHONENUM" from rfl] at h
  exact h
